import Mathlib

/-!
Shallow embedding of the field/type-wrapper layer of `ObjectTypeComposer`
(file `src/ObjectTypeComposer.js`) of the graphql-compose repository.

JavaScript objects that serve as string-keyed dictionaries (field maps,
argument maps, extension bags) are modelled as insertion-ordered
association lists `List (String × α)`; JS property read, property
assignment and object spread are modelled by `jsGet`/`jsSet`/`jsSpread`
below, which reproduce the ordering behaviour of JS objects (assignment
to an existing key keeps its position, assignment to a fresh key appends;
spread keeps the left object's key order, right values win).

Exceptions thrown by a method that mutates `this` in place are modelled
by returning the pair of the state at throw time and an `Option String`
error (`none` = normal return), so that partial mutation before a throw
stays observable.
-/

/-- Model of a primitive JavaScript value as it appears in argument maps,
extension bags and resolver sources.  `undefined` is JS `undefined` (the
result of reading an absent property), distinct from `null`. -/
inductive JVal where
  | str : String → JVal
  | num : Int → JVal
  | bool : Bool → JVal
  | null : JVal
  | undefined : JVal
deriving DecidableEq, Repr

/-- First value stored under key `k` in an association list (JS property
lookup on a string-keyed object; keys are unique in objects built by JS). -/
def findVal (k : String) : List (String × α) → Option α
  | [] => none
  | p :: ps => if p.1 = k then some p.2 else findVal k ps

/-- Key list of an association list (JS `Object.keys`). -/
def keysOf : List (String × α) → List String
  | [] => []
  | p :: ps => p.1 :: keysOf ps

/-- Boolean key-membership test (`!!obj[k]` / `Object.keys(obj).indexOf(k) !== -1`). -/
def hasKey (k : String) : List (String × α) → Bool
  | [] => false
  | p :: ps => if p.1 = k then true else hasKey k ps

/-- Boolean string-membership test (`arr.indexOf(s) !== -1`). -/
def strIn (k : String) : List String → Bool
  | [] => false
  | s :: ss => if s = k then true else strIn k ss

/-- JS property read on an object: an absent key reads as `undefined`. -/
def jsGet (m : List (String × JVal)) (k : String) : JVal :=
  (findVal k m).getD .undefined

/-- JS property assignment `m[k] = v`: an existing key keeps its position
(every entry under that key is overwritten; keys are unique in practice),
a fresh key is appended. -/
def jsSet (m : List (String × α)) (k : String) (v : α) : List (String × α) :=
  if hasKey k m then
    m.map (fun p => if p.1 = k then (p.1, v) else p)
  else
    m ++ [(k, v)]

/-- JS object spread `{ ...a, ...b }`: `a`'s keys in `a`'s order with `b`'s
value when `b` also has the key, then `b`'s remaining keys in `b`'s order. -/
def jsSpread (a b : List (String × α)) : List (String × α) :=
  a.map (fun p => (p.1, (findVal p.1 b).getD p.2)) ++
    b.filter (fun p => (findVal p.1 a).isNone)

/-- JS `delete m[k]`. -/
def delKey (k : String) : List (String × α) → List (String × α)
  | [] => []
  | p :: ps => if p.1 = k then delKey k ps else p :: delKey k ps

/-- Type-wrapper algebra (spec §3 TypeWrapper).  A `named` leaf stands for
any composer that is neither a `ListComposer` nor a `NonNullComposer`
(object/scalar/enum/... type composers, identified by type name); `list`
is `ListComposer`, `nonNull` is `NonNullComposer`.  The `ThunkComposer`
(Lazy) variant is omitted: no claim below concerns it, and for the
`instanceof ListComposer` / `instanceof NonNullComposer` tests of the
embedded methods a thunk behaves exactly like a `named` leaf. -/
inductive TypeW where
  | named : String → TypeW
  | list : TypeW → TypeW
  | nonNull : TypeW → TypeW
deriving DecidableEq, Repr

/-- The `instanceof NonNullComposer` test. -/
def TypeW.isNonNullC : TypeW → Bool
  | .nonNull _ => true
  | _ => false

/-- The `instanceof ListComposer` test. -/
def TypeW.isListC : TypeW → Bool
  | .list _ => true
  | _ => false

/-- Per-type transform of `makeFieldNonNull` / `makeFieldArgNonNull`:
`if (!(t instanceof NonNullComposer)) t = new NonNullComposer(t)`. -/
def wrapNonNullT : TypeW → TypeW
  | .nonNull t => .nonNull t
  | t => .nonNull t

/-- Per-type transform of `makeFieldNullable` / `makeFieldArgNullable`:
`if (t instanceof NonNullComposer) t = t.ofType`. -/
def unwrapNonNullT : TypeW → TypeW
  | .nonNull t => t
  | t => t

/-- Per-type transform of `makeFieldPlural` / `makeFieldArgPlural`:
`if (!(t instanceof ListComposer)) t = new ListComposer(t)`. -/
def wrapListT : TypeW → TypeW
  | .list t => .list t
  | t => .list t

/-- Per-type transform appearing verbatim in both `makeFieldNonPlural`
and `makeFieldArgNonPlural`:
if `t instanceof ListComposer` take `t.ofType`; else if `t` is
`NonNullComposer` of `ListComposer`, take `t.ofType.ofType` when that is
already `NonNullComposer`, otherwise `new NonNullComposer(t.ofType.ofType)`;
otherwise leave `t` unchanged. -/
def unwrapListT : TypeW → TypeW
  | .list t => t
  | .nonNull (.list (.nonNull t)) => .nonNull t
  | .nonNull (.list (.named n)) => .nonNull (.named n)
  | .nonNull (.list (.list t)) => .nonNull (.list t)
  | t => t

/-- The type sitting in the list-element position of `wrapListT w`: `w`
itself when `w` is not a list (wrapping puts `w` in element position),
and `w`'s existing element when `w` is already a list (wrapping is then
a no-op). -/
def pluralElemT : TypeW → TypeW
  | .list t => t
  | t => t

/-- Argument descriptor (spec §3 ArgDescriptor), restricted to the parts
the claims observe. -/
structure ArgConfig where
  type : TypeW
deriving DecidableEq, Repr

/-- Field descriptor (`ObjectTypeComposerFieldConfig`), restricted to the
parts the claims observe.  `args` models `fc.args || {}` (absent `args`
reads as the empty map). -/
structure FieldConfig where
  type : TypeW
  args : List (String × ArgConfig) := []
  description : Option String := none
  deprecationReason : Option String := none
  extensions : List (String × JVal) := []
deriving DecidableEq, Repr

/-- Partial field config passed to `extendField` (`$Shape<...>`): `none`
means the key is absent from the partial object. -/
structure FieldPatch where
  type : Option TypeW := none
  args : Option (List (String × ArgConfig)) := none
  description : Option String := none
  deprecationReason : Option String := none
  extensions : Option (List (String × JVal)) := none
deriving DecidableEq, Repr

/-- The merge performed by `extendField`:
`{ ...prev, ...partial, extensions: { ...prev.extensions, ...partial.extensions } }`.
A key present in the partial wins; `extensions` is merged key-by-key with
the partial's keys winning (`partial.extensions || {}` for an absent bag). -/
def applyPatch (prev : FieldConfig) (p : FieldPatch) : FieldConfig :=
  { type := p.type.getD prev.type
    args := p.args.getD prev.args
    description := match p.description with
      | some d => some d
      | none => prev.description
    deprecationReason := match p.deprecationReason with
      | some d => some d
      | none => prev.deprecationReason
    extensions := jsSpread prev.extensions (p.extensions.getD []) }

/-- The slice of an `ObjectTypeComposer` instance the claims observe:
its type name (`getTypeName()`) and its field map (`this._gqcFields`). -/
structure ObjectTypeComposer where
  name : String
  fields : List (String × FieldConfig)
deriving DecidableEq, Repr

namespace ObjectTypeComposer

/-- Source `getFieldNames()`. -/
def getFieldNames (tc : ObjectTypeComposer) : List String :=
  keysOf tc.fields

/-- Source `hasField(fieldName)`. -/
def hasField (tc : ObjectTypeComposer) (fieldName : String) : Bool :=
  hasKey fieldName tc.fields

/-- Source `getField(fieldName)`: throws when the field is absent. -/
def getField (tc : ObjectTypeComposer) (fieldName : String) :
    Except String FieldConfig :=
  match findVal fieldName tc.fields with
  | none => .error ("Cannot get field '" ++ fieldName ++ "' from type '" ++
      tc.name ++ "'. Field does not exist.")
  | some fc => .ok fc

/-- Source `reorderFields(names)` inner loop: each name found in the
remaining map is moved (in `names` order) into the ordered prefix and
deleted from the remainder; absent names are skipped. -/
def reorderLoop (names : List String)
    (acc fs : List (String × FieldConfig)) :
    List (String × FieldConfig) × List (String × FieldConfig) :=
  match names with
  | [] => (acc, fs)
  | n :: rest =>
    match findVal n fs with
    | some fc => reorderLoop rest (acc ++ [(n, fc)]) (delKey n fs)
    | none => reorderLoop rest acc fs

/-- Source `reorderFields(names)`: `{ ...orderedFields, ...fields }` where
the two maps have disjoint keys, hence plain concatenation. -/
def reorderFields (tc : ObjectTypeComposer) (names : List String) :
    ObjectTypeComposer :=
  let p := reorderLoop names [] tc.fields
  { tc with fields := p.1 ++ p.2 }

/-- Source `extendField(fieldName, partialFieldConfig)`.  The external
`typeMapper` collaborator invoked by `setField` is the identity on the
already-normalized descriptor produced by the merge (spec §6: the mapper
accepts already-normalized values).  Returns (state after the call,
thrown error if any). -/
def extendField (tc : ObjectTypeComposer) (fieldName : String)
    (patch : FieldPatch) : ObjectTypeComposer × Option String :=
  match findVal fieldName tc.fields with
  | none => (tc, some ("Cannot extend field '" ++ fieldName ++ "' from type '" ++
      tc.name ++ "'. Field does not exist."))
  | some prev =>
    ({ tc with fields := jsSet tc.fields fieldName (applyPatch prev patch) },
      none)

/-- Bulk-transform of one field's type, shared shape of the four
`makeFieldNonNull/Nullable/Plural/NonPlural` methods: an absent name is
silently skipped (`if (fc) ...`), a present name has its `type` replaced
in place. -/
def updateFieldType (fs : List (String × FieldConfig)) (n : String)
    (g : TypeW → TypeW) : List (String × FieldConfig) :=
  fs.map (fun p => if p.1 = n then (p.1, { p.2 with type := g p.2.type }) else p)

/-- Source `makeFieldNonNull(fieldNameOrArray)` (a single name is the
singleton list, per the `Array.isArray` normalization). -/
def makeFieldNonNull (tc : ObjectTypeComposer) (names : List String) :
    ObjectTypeComposer :=
  { tc with fields := names.foldl (fun fs n => updateFieldType fs n wrapNonNullT) tc.fields }

/-- Source `makeFieldNullable(fieldNameOrArray)`. -/
def makeFieldNullable (tc : ObjectTypeComposer) (names : List String) :
    ObjectTypeComposer :=
  { tc with fields := names.foldl (fun fs n => updateFieldType fs n unwrapNonNullT) tc.fields }

/-- Source `makeFieldPlural(fieldNameOrArray)`. -/
def makeFieldPlural (tc : ObjectTypeComposer) (names : List String) :
    ObjectTypeComposer :=
  { tc with fields := names.foldl (fun fs n => updateFieldType fs n wrapListT) tc.fields }

/-- Source `makeFieldNonPlural(fieldNameOrArray)`. -/
def makeFieldNonPlural (tc : ObjectTypeComposer) (names : List String) :
    ObjectTypeComposer :=
  { tc with fields := names.foldl (fun fs n => updateFieldType fs n unwrapListT) tc.fields }

/-- In-place transform of one argument's type (shared shape of the
`makeFieldArg*` methods' inner loop; absent arg names silently skipped). -/
def updateArgType (as : List (String × ArgConfig)) (n : String)
    (g : TypeW → TypeW) : List (String × ArgConfig) :=
  as.map (fun p => if p.1 = n then (p.1, { p.2 with type := g p.2.type }) else p)

/-- Source `makeFieldArgNonPlural(fieldName, argNameOrArray)`:
`this.getField(fieldName)` throws when the field is absent; otherwise each
named argument's type goes through the same unwrap transform as
`makeFieldNonPlural`. -/
def makeFieldArgNonPlural (tc : ObjectTypeComposer) (fieldName : String)
    (argNames : List String) : ObjectTypeComposer × Option String :=
  match findVal fieldName tc.fields with
  | none => (tc, some ("Cannot get field '" ++ fieldName ++ "' from type '" ++
      tc.name ++ "'. Field does not exist."))
  | some fc =>
    let newArgs := argNames.foldl (fun as n => updateArgType as n unwrapListT) fc.args
    ({ tc with fields := jsSet tc.fields fieldName { fc with args := newArgs } },
      none)

/-- Argument accepted by `deprecateFields`: a single name, a list of
names, or a name-to-reason map. -/
inductive DeprecateArg where
  | one : String → DeprecateArg
  | names : List String → DeprecateArg
  | reasons : List (String × String) → DeprecateArg

/-- Loop body of `deprecateFields` for a list of names: each name is
checked against the field names captured before the loop; an unknown name
throws immediately (mutations already applied are kept), a known name is
deprecated via `extendField` with reason `'deprecated'`. -/
def deprecateLoop (existed : List String) (tn : String) :
    List String → ObjectTypeComposer → ObjectTypeComposer × Option String
  | [], tc => (tc, none)
  | f :: rest, tc =>
    if strIn f existed then
      match tc.extendField f { deprecationReason := some "deprecated" } with
      | (tc', none) => deprecateLoop existed tn rest tc'
      | (tc', some e) => (tc', some e)
    else
      (tc, some ("Cannot deprecate unexisted field '" ++ f ++ "' from type '" ++
        tn ++ "'"))

/-- Loop body of `deprecateFields` for a name-to-reason map (iterated in
key order, per `Object.keys`). -/
def deprecateKVLoop (existed : List String) (tn : String) :
    List (String × String) → ObjectTypeComposer → ObjectTypeComposer × Option String
  | [], tc => (tc, none)
  | p :: rest, tc =>
    if strIn p.1 existed then
      match tc.extendField p.1 { deprecationReason := some p.2 } with
      | (tc', none) => deprecateKVLoop existed tn rest tc'
      | (tc', some e) => (tc', some e)
    else
      (tc, some ("Cannot deprecate unexisted field '" ++ p.1 ++ "' from type '" ++
        tn ++ "'"))

/-- Source `deprecateFields(fields)`.  `existedFieldNames` is computed
once before dispatching on the argument's shape. -/
def deprecateFields (tc : ObjectTypeComposer) (arg : DeprecateArg) :
    ObjectTypeComposer × Option String :=
  let existed := tc.getFieldNames
  match arg with
  | .one f =>
    if strIn f existed then
      tc.extendField f { deprecationReason := some "deprecated" }
    else
      (tc, some ("Cannot deprecate unexisted field '" ++ f ++ "' from type '" ++
        tc.name ++ "'"))
  | .names fs => deprecateLoop existed tc.name fs tc
  | .reasons m => deprecateKVLoop existed tc.name m tc

/-- Source `getFieldArgs(fieldName)`: rethrows a missing field as a
dedicated error; a present field yields `fc.args || {}`. -/
def getFieldArgs (tc : ObjectTypeComposer) (fieldName : String) :
    Except String (List (String × ArgConfig)) :=
  match findVal fieldName tc.fields with
  | none => .error ("Cannot get args from '" ++ tc.name ++ "." ++ fieldName ++
      "'. Field does not exist.")
  | some fc => .ok fc.args

/-- Source `hasFieldArg(fieldName, argName)`: any throw from
`getFieldArgs` is caught and turned into `false`; otherwise the truthiness
of the argument config under `argName`.  A pure function of the composer:
the source method only reads `this`, so the query leaves the composer
unchanged by construction. -/
def hasFieldArg (tc : ObjectTypeComposer) (fieldName argName : String) : Bool :=
  match tc.getFieldArgs fieldName with
  | .error _ => false
  | .ok fieldArgs => (findVal argName fieldArgs).isSome

/-- Source `getFieldArg(fieldName, argName)`: throws for a missing field
(via `getFieldArgs`) and for a missing argument. -/
def getFieldArg (tc : ObjectTypeComposer) (fieldName argName : String) :
    Except String ArgConfig :=
  match tc.getFieldArgs fieldName with
  | .error e => .error e
  | .ok fieldArgs =>
    match findVal argName fieldArgs with
    | none => .error ("Cannot get '" ++ tc.name ++ "." ++ fieldName ++ "@" ++
        argName ++ "'. Argument does not exist.")
    | some arg => .ok arg

end ObjectTypeComposer

/-- Resolver source (`source` parameter), context and info are opaque JS
values; a source object is an association list so that a `prepareArgs`
function can read its properties. -/
abbrev Source := List (String × JVal)

/-- Caller-supplied argument map at resolve time. -/
abbrev ArgsMap := List (String × JVal)

/-- Outcome of calling a JS resolve function, separating the four shapes
the relation compiler's error handling distinguishes: a plain return, a
synchronous `throw`, a promise that fulfills, and a promise that rejects
(errors are carried as their message). -/
inductive JsOutcome (α : Type) where
  | ret : α → JsOutcome α
  | thrown : String → JsOutcome α
  | promiseOk : α → JsOutcome α
  | promiseErr : String → JsOutcome α
deriving DecidableEq, Repr

/-- Runtime argument mapper from `prepareArgs`:
`(source, args, context, info) => value`. -/
abbrev PrepFn := Source → ArgsMap → JVal → JVal → JVal

instance : Inhabited JVal := ⟨.undefined⟩

instance : Nonempty PrepFn := ⟨fun _ _ _ _ => .undefined⟩

/-- One value of the `prepareArgs` map: JS `undefined`, JS `null`, a
mapper function, or any other concrete value. -/
inductive PrepareArgVal where
  | undefined : PrepareArgVal
  | null : PrepareArgVal
  | fn : PrepFn → PrepareArgVal
  | value : JVal → PrepareArgVal

/-- The `argMapVal === undefined` test of the compiler loop. -/
def PrepareArgVal.isUndefined : PrepareArgVal → Bool
  | .undefined => true
  | _ => false

/-- Delegate resolver (external `Resolver` collaborator) as consumed by
`_relationWithResolverToFC`: its declared argument configs, declared
output type, own metadata, and the resolve function of its field config
(`resolver.getFieldConfig().resolve`, absent when the resolver has none). -/
structure Resolver where
  args : List (String × ArgConfig)
  type : TypeW
  description : Option String := none
  deprecationReason : Option String := none
  resolve : Option (Source → ArgsMap → JVal → JVal → JsOutcome JVal) := none

/-- Relation options (`ObjectTypeComposerRelationOptsWithResolver`) as
consumed by `_relationWithResolverToFC` after the resolver reference has
been resolved and the `resolver`/`type`/`resolve` conflict checks have
passed (no claim concerns those thrown conflicts).  `catchErrors = none`
models an absent property, defaulted to `true` by the destructuring
`const { catchErrors = true } = opts`. -/
structure RelationOpts where
  prepareArgs : List (String × PrepareArgVal) := []
  catchErrors : Option Bool := none
  description : Option String := none
  deprecationReason : Option String := none

/-- The exposed argument set: `{ ...resolver.args }` with
`delete argsConfig[argName]` for every `prepareArgs` key whose value is
not `undefined`. -/
def removedArgsConfig (base : List (String × ArgConfig))
    (prep : List (String × PrepareArgVal)) : List (String × ArgConfig) :=
  prep.foldl (fun cfg p => if p.2.isUndefined then cfg else delKey p.1 cfg) base

/-- The `argsProto` object: `argsProto[argName] = argMapVal` for every
`prepareArgs` entry holding a concrete (non-undefined, non-null,
non-function) value, in key order. -/
def protoOf (prep : List (String × PrepareArgVal)) : ArgsMap :=
  prep.foldl
    (fun acc p => match p.2 with
      | .value v => jsSet acc p.1 v
      | _ => acc)
    []

/-- The `argsRuntime` array: the function entries of `prepareArgs`,
pushed in key order. -/
def runtimeOf : List (String × PrepareArgVal) → List (String × PrepFn)
  | [] => []
  | p :: ps =>
    match p.2 with
    | .fn f => (p.1, f) :: runtimeOf ps
    | _ => runtimeOf ps

/-- The argument object handed to the delegate:
`const newArgs = { ...args, ...argsProto }` followed by
`newArgs[argName] = argFn(source, args, context, info)` for each runtime
mapper (each mapper receives the caller's original `args`). -/
def mergedArgs (proto : ArgsMap) (runtime : List (String × PrepFn))
    (source : Source) (args : ArgsMap) (context info : JVal) : ArgsMap :=
  runtime.foldl (fun na p => jsSet na p.1 (p.2 source args context info))
    (jsSpread args proto)

/-- The delegate invocation inside the compiled resolve:
`fieldConfig.resolve ? fieldConfig.resolve(source, newArgs, context, info) : null`. -/
def delegatePayload (r : Resolver) (o : RelationOpts) (source : Source)
    (args : ArgsMap) (context info : JVal) : JsOutcome JVal :=
  match r.resolve with
  | some f =>
    f source (mergedArgs (protoOf o.prepareArgs) (runtimeOf o.prepareArgs)
      source args context info) context info
  | none => .ret .null

/-- The compiled resolve function.  The second component counts
invocations of the error sink (the `catch` handler's `console.log` of the
swallowed error, spec §6's `report(error)` collaborator).  With
`catchErrors` the result is wrapped by `Promise.resolve(payload).catch(...)`:
a plain value or a fulfilled promise becomes a fulfilled promise, a
rejected promise is reported once and becomes a promise fulfilled with
`null`; a synchronous throw from the delegate escapes before the promise
wrapping is reached, under either setting.  Without `catchErrors` the
payload is returned unchanged. -/
def relationResolve (r : Resolver) (o : RelationOpts) (source : Source)
    (args : ArgsMap) (context info : JVal) : JsOutcome JVal × Nat :=
  let payload := delegatePayload r o source args context info
  if o.catchErrors.getD true then
    match payload with
    | .ret v => (.promiseOk v, 0)
    | .promiseOk v => (.promiseOk v, 0)
    | .promiseErr _ => (.promiseOk .null, 1)
    | .thrown e => (.thrown e, 0)
  else
    (payload, 0)

/-- JS `a || b` on two optional strings (`undefined` and `''` are falsy). -/
def jsOrStr (a b : Option String) : Option String :=
  match a with
  | some s => if s = "" then b else some s
  | none => b

/-- The field config compiled by `_relationWithResolverToFC` (its slice
observed by the claims; `projection` is passed through untouched and
omitted). -/
structure CompiledField where
  type : TypeW
  description : Option String
  deprecationReason : Option String
  args : List (String × ArgConfig)
  resolve : Source → ArgsMap → JVal → JVal → JsOutcome JVal × Nat

/-- Source `_relationWithResolverToFC(opts)` result object:
`type: resolver.type`, `description: opts.description || resolver.description`,
`deprecationReason: opts.deprecationReason`, the narrowed `args`, and the
compiled resolve. -/
def relationWithResolverToFC (r : Resolver) (o : RelationOpts) : CompiledField :=
  { type := r.type
    description := jsOrStr o.description r.description
    deprecationReason := o.deprecationReason
    args := removedArgsConfig r.args o.prepareArgs
    resolve := relationResolve r o }

/-- Specification-side predicate: the delegate argument named `k`
survives the `prepareArgs` narrowing exactly when `prepareArgs` does not
mention `k`, or mentions it with value `undefined`. -/
def keepArg (prep : List (String × PrepareArgVal)) (k : String) : Bool :=
  match findVal k prep with
  | some v => v.isUndefined
  | none => true

/-- Sample source object for the spec's worked relation example:
`source = { id: 'x' }`. -/
def sampleSource : Source := [("id", .str "x")]

/-- Sample delegate resolver with arguments `{ id, limit }` whose resolve
function reports (through its return value) whether it was invoked with
exactly the arguments `{ limit: 10, id: 'x' }`. -/
def sampleResolver : Resolver :=
  { args := [("id", { type := .named "ID" }), ("limit", { type := .named "Int" })]
    type := .named "User"
    resolve := some (fun _ na _ _ =>
      if na = [("limit", .num 10), ("id", .str "x")] then .ret (.str "delegate-args-ok")
      else .ret .null) }

/-- Sample relation options with
`prepareArgs = { limit: 10, id: (src) => src.id }`. -/
def sampleOpts : RelationOpts :=
  { prepareArgs := [("limit", .value (.num 10)),
      ("id", .fn (fun src _ _ _ => jsGet src "id"))] }

/-- Specification-side helper for `reorderFields`: the entries of `m`
named by `names` that actually exist, in the order the names are given,
carrying their stored configs unchanged. -/
def pickKeys (names : List String) (m : List (String × α)) : List (String × α) :=
  match names with
  | [] => []
  | n :: rest =>
    match findVal n m with
    | some v => (n, v) :: pickKeys rest m
    | none => pickKeys rest m

/-- Specification-side helper for `reorderFields`: the entries of `m`
whose key is not among `names`, in their original relative order. -/
def dropKeys (names : List String) : List (String × α) → List (String × α)
  | [] => []
  | p :: ps =>
    if strIn p.1 names then dropKeys names ps else p :: dropKeys names ps

/-- State produced by deprecating a list of (existing) field names in
order, each via `extendField` with reason `'deprecated'` — the prefix of
work `deprecateFields` completes before hitting an unknown name. -/
def applyDeprecations (fs : List String) (tc : ObjectTypeComposer) :
    ObjectTypeComposer :=
  fs.foldl (fun t f => (t.extendField f { deprecationReason := some "deprecated" }).1) tc

/-!  Basic lemmas about the association-list model of JS objects. -/

theorem findVal_eq_none_of_hasKey_false {α : Type} {k : String}
    {m : List (String × α)} (h : hasKey k m = false) : findVal k m = none := by
  induction m with
  | nil => rfl
  | cons p ps ih =>
    by_cases hp : p.1 = k
    · simp [hasKey, hp] at h
    · simp [hasKey, hp] at h
      simp [findVal, hp, ih h]

theorem hasKey_eq_isSome_findVal {α : Type} (k : String)
    (m : List (String × α)) : hasKey k m = (findVal k m).isSome := by
  induction m with
  | nil => rfl
  | cons p ps ih =>
    by_cases hp : p.1 = k <;> simp [hasKey, findVal, hp, ih]

theorem findVal_append {α : Type} (k : String) (m1 m2 : List (String × α)) :
    findVal k (m1 ++ m2) =
      match findVal k m1 with
      | some v => some v
      | none => findVal k m2 := by
  induction m1 with
  | nil => simp [findVal]
  | cons p ps ih =>
    by_cases hp : p.1 = k <;> simp [findVal, hp, ih]

theorem findVal_map_set {α : Type} (m : List (String × α)) (k k' : String)
    (v : α) :
    findVal k' (m.map (fun p => if p.1 = k then (p.1, v) else p)) =
      if k' = k then (findVal k m).map (fun _ => v) else findVal k' m := by
  induction m with
  | nil => by_cases h : k' = k <;> simp [findVal, h]
  | cons p ps ih =>
    by_cases hp : p.1 = k
    · by_cases hk' : k' = k
      · subst hk'
        simp [findVal, hp]
      · have hkk' : ¬ k = k' := fun hc => hk' hc.symm
        simp [findVal, hp, hkk', hk'] at ih ⊢
        exact ih
    · by_cases hpk' : p.1 = k'
      · have hk' : ¬ k' = k := fun hc => hp (hpk'.trans hc)
        simp [findVal, hp, hpk', hk']
      · simp [findVal, hp, hpk', ih]

theorem findVal_jsSet {α : Type} (m : List (String × α)) (k k' : String)
    (v : α) :
    findVal k' (jsSet m k v) = if k' = k then some v else findVal k' m := by
  unfold jsSet
  by_cases h : hasKey k m
  · rw [if_pos h, findVal_map_set]
    by_cases hk' : k' = k
    · rw [hasKey_eq_isSome_findVal] at h
      rcases Option.isSome_iff_exists.mp h with ⟨w, hw⟩
      simp [hk', hw]
    · simp [hk']
  · rw [if_neg h, findVal_append]
    have hnone : findVal k m = none :=
      findVal_eq_none_of_hasKey_false (by simpa using h)
    by_cases hk' : k' = k
    · subst hk'
      simp [hnone, findVal]
    · cases hm : findVal k' m <;>
        simp [hm, findVal, hk', show ¬ k = k' from fun hc => hk' hc.symm]

theorem findVal_delKey {α : Type} (m : List (String × α)) (k k' : String) :
    findVal k' (delKey k m) = if k' = k then none else findVal k' m := by
  induction m with
  | nil => by_cases h : k' = k <;> simp [delKey, findVal, h]
  | cons p ps ih =>
    by_cases hp : p.1 = k
    · by_cases hk' : k' = k
      · subst hk'
        simpa [delKey, hp] using ih
      · have hpk' : ¬ p.1 = k' := fun hc => hk' (hc.symm.trans hp)
        have hkk' : ¬ k = k' := fun hc => hk' hc.symm
        simp [delKey, findVal, hp, hk', hkk'] at ih ⊢
        exact ih
    · by_cases hpk' : p.1 = k'
      · have hk' : ¬ k' = k := fun hc => hp (hpk'.trans hc)
        simp [delKey, findVal, hp, hpk', hk']
      · simp [delKey, findVal, hp, hpk', ih]

theorem findVal_spread_map {α : Type} (k : String) (a b : List (String × α)) :
    findVal k (a.map (fun p => (p.1, (findVal p.1 b).getD p.2))) =
      (findVal k a).map (fun v => (findVal k b).getD v) := by
  induction a with
  | nil => simp [findVal]
  | cons p ps ih =>
    by_cases hp : p.1 = k
    · subst hp
      simp [findVal, ih]
    · simp [findVal, hp, ih]

theorem findVal_spread_filter {α : Type} (k : String) (a b : List (String × α))
    (ha : findVal k a = none) :
    findVal k (b.filter (fun p => (findVal p.1 a).isNone)) = findVal k b := by
  induction b with
  | nil => rfl
  | cons q qs ih =>
    by_cases hq : q.1 = k
    · subst hq
      simp [List.filter, ha, findVal]
    · by_cases hkeep : (findVal q.1 a).isNone <;>
        simp [List.filter, hkeep, findVal, hq, ih]

theorem findVal_jsSpread {α : Type} (k : String) (a b : List (String × α)) :
    findVal k (jsSpread a b) =
      match findVal k b with
      | some v => some v
      | none => findVal k a := by
  unfold jsSpread
  rw [findVal_append, findVal_spread_map]
  cases ha : findVal k a with
  | some v => cases hb : findVal k b <;> simp
  | none =>
    simp only [Option.map_none']
    rw [findVal_spread_filter k a b ha]
    cases hb : findVal k b <;> simp [ha]

theorem jsGet_jsSet (m : ArgsMap) (k k' : String) (v : JVal) :
    jsGet (jsSet m k v) k' = if k' = k then v else jsGet m k' := by
  unfold jsGet
  rw [findVal_jsSet]
  by_cases h : k' = k <;> simp [h]

theorem hasKey_jsSet {α : Type} (m : List (String × α)) (k k' : String) (v : α) :
    hasKey k' (jsSet m k v) = (if k' = k then true else hasKey k' m) := by
  rw [hasKey_eq_isSome_findVal, findVal_jsSet, hasKey_eq_isSome_findVal]
  by_cases h : k' = k <;> simp [h]

/-!  Claims C4, C5, C6: the wrap/unwrap policy of the type-wrapper layer. -/

/-- Claim C4 counterexample: a field of type `NonNull(List(Int))`, whose
inner element `Int` is not NonNull, still comes out of
`makeFieldNonPlural` wrapped in NonNull (`NonNull(Int)`), contradicting
the claim that the result is then not NonNull-wrapped. -/
theorem makeFieldNonPlural_cex :
    (ObjectTypeComposer.makeFieldNonPlural
        ⟨"T", [("f", { type := .nonNull (.list (.named "Int")) })]⟩
        ["f"]).fields
      = [("f", { type := .nonNull (.named "Int") })]
    ∧ (TypeW.named "Int").isNonNullC = false
    ∧ (TypeW.nonNull (.named "Int")).isNonNullC = true := by
  decide

/-- Claim C4 (amended): removing the list layer from
`NonNull(List(inner))` always yields a NonNull result: `inner` itself
when it is already NonNull, `NonNull(inner)` otherwise.  This is the
transform applied by both `makeFieldNonPlural` and
`makeFieldArgNonPlural` (last two conjuncts). -/
theorem unwrapList_nonNull_spec (inner : TypeW) (tn f a : String)
    (fc0 : FieldConfig) (ac : ArgConfig) :
    unwrapListT (.nonNull (.list inner))
        = (if inner.isNonNullC then inner else .nonNull inner)
    ∧ (unwrapListT (.nonNull (.list inner))).isNonNullC = true
    ∧ (ObjectTypeComposer.makeFieldNonPlural
          ⟨tn, [(f, { fc0 with type := .nonNull (.list inner) })]⟩ [f]).fields
        = [(f, { fc0 with type := unwrapListT (.nonNull (.list inner)) })]
    ∧ (ObjectTypeComposer.makeFieldArgNonPlural
          ⟨tn, [(f, { fc0 with args := [(a, { ac with type := .nonNull (.list inner) })] })]⟩
          f [a]).1.fields
        = [(f, { fc0 with
            args := [(a, { ac with type := unwrapListT (.nonNull (.list inner)) })] })] := by
  refine ⟨?_, ?_, ?_, ?_⟩
  · cases inner <;> rfl
  · cases inner <;> rfl
  · simp [ObjectTypeComposer.makeFieldNonPlural, ObjectTypeComposer.updateFieldType]
  · simp [ObjectTypeComposer.makeFieldArgNonPlural, ObjectTypeComposer.updateArgType,
      findVal, jsSet, hasKey]

/-- Claim C5: making a field plural and then non-plural gives back
exactly the type in the list-element position of the pluralized field
(`w` itself when `w` was not a list, `w`'s element when plurality was a
no-op on an existing list), so in particular that element type's
nullability is restored. -/
theorem plural_roundtrip_spec (w : TypeW) (tn f : String) (fc0 : FieldConfig) :
    unwrapListT (wrapListT w) = pluralElemT w
    ∧ (unwrapListT (wrapListT w)).isNonNullC = (pluralElemT w).isNonNullC
    ∧ (ObjectTypeComposer.makeFieldNonPlural
          (ObjectTypeComposer.makeFieldPlural
            ⟨tn, [(f, { fc0 with type := w })]⟩ [f]) [f]).fields
        = [(f, { fc0 with type := pluralElemT w })] := by
  have h : unwrapListT (wrapListT w) = pluralElemT w := by
    cases w <;> rfl
  refine ⟨h, by rw [h], ?_⟩
  simp [ObjectTypeComposer.makeFieldPlural, ObjectTypeComposer.makeFieldNonPlural,
    ObjectTypeComposer.updateFieldType, h]

/-- Claim C6 counterexample: for the already-NonNull field type
`NonNull(User)`, `makeFieldNonNull` is a no-op and `makeFieldNullable`
then strips the NonNull layer, so the wrap/unwrap round trip does not
return the original type. -/
theorem nonNull_roundtrip_cex :
    unwrapNonNullT (wrapNonNullT (.nonNull (.named "User"))) = .named "User"
    ∧ unwrapNonNullT (wrapNonNullT (.nonNull (.named "User")))
        ≠ .nonNull (.named "User")
    ∧ (ObjectTypeComposer.makeFieldNullable
          (ObjectTypeComposer.makeFieldNonNull
            ⟨"T", [("f", { type := .nonNull (.named "User") })]⟩ ["f"]) ["f"]).fields
        = [("f", { type := .named "User" })] := by
  decide

/-- Claim C6 (amended): for every field type that is not already NonNull,
wrapping NonNull and then unwrapping NonNull returns it unchanged, and
wrapping NonNull is idempotent on every field type (an already-NonNull
type is left untouched); the field-level round trip restores such a
field's type as well. -/
theorem nonNull_roundtrip_spec (w : TypeW) (h : w.isNonNullC = false) :
    unwrapNonNullT (wrapNonNullT w) = w
    ∧ (∀ w', wrapNonNullT (wrapNonNullT w') = wrapNonNullT w')
    ∧ (∀ (tn f : String) (fc0 : FieldConfig), (ObjectTypeComposer.makeFieldNullable
          (ObjectTypeComposer.makeFieldNonNull
            ⟨tn, [(f, { fc0 with type := w })]⟩ [f]) [f]).fields
        = [(f, { fc0 with type := w })]) := by
  have h1 : unwrapNonNullT (wrapNonNullT w) = w := by
    cases w <;> first | rfl | simp [TypeW.isNonNullC] at h
  refine ⟨h1, fun w' => by cases w' <;> rfl, fun tn f fc0 => ?_⟩
  simp [ObjectTypeComposer.makeFieldNonNull, ObjectTypeComposer.makeFieldNullable,
    ObjectTypeComposer.updateFieldType, h1]

/-- Claim C6 witness: the round-trip and idempotence law applied to the
non-NonNull field type `User`. -/
theorem nonNull_roundtrip_spec_witness :
    unwrapNonNullT (wrapNonNullT (.named "User")) = .named "User"
    ∧ wrapNonNullT (wrapNonNullT (.named "User")) = wrapNonNullT (.named "User") := by
  have h := nonNull_roundtrip_spec (.named "User") (by decide)
  exact ⟨h.1, h.2.1 (.named "User")⟩

/-!  Lemmas for `reorderFields`, `extendField`, `deprecateFields`,
`hasFieldArg`. -/

theorem strIn_iff_mem (k : String) (l : List String) :
    strIn k l = true ↔ k ∈ l := by
  induction l with
  | nil => simp [strIn]
  | cons s ss ih =>
    by_cases hs : s = k
    · simp [strIn, hs]
    · have hks : ¬ k = s := fun hc => hs hc.symm
      simp [strIn, hs, ih, hks]

theorem strIn_keysOf {α : Type} (k : String) (m : List (String × α)) :
    strIn k (keysOf m) = hasKey k m := by
  induction m with
  | nil => rfl
  | cons p ps ih =>
    by_cases hp : p.1 = k <;> simp [strIn, keysOf, hasKey, hp, ih]

theorem keysOf_map_set {α : Type} (m : List (String × α)) (k : String) (v : α) :
    keysOf (m.map (fun p => if p.1 = k then (p.1, v) else p)) = keysOf m := by
  induction m with
  | nil => rfl
  | cons p ps ih =>
    by_cases hp : p.1 = k <;> simp [keysOf, hp, ih]

theorem keysOf_jsSet_present {α : Type} {m : List (String × α)} {k : String}
    (v : α) (h : hasKey k m = true) : keysOf (jsSet m k v) = keysOf m := by
  unfold jsSet
  rw [if_pos h, keysOf_map_set]

theorem jsSpread_nil_right {α : Type} (a : List (String × α)) :
    jsSpread a [] = a := by
  unfold jsSpread
  simp [findVal]

theorem dropKeys_nil {α : Type} (m : List (String × α)) :
    dropKeys [] m = m := by
  induction m with
  | nil => rfl
  | cons p ps ih => simp [dropKeys, strIn, ih]

theorem pickKeys_delKey {α : Type} (rest : List String) (n : String)
    (m : List (String × α)) (h : ∀ r ∈ rest, ¬ r = n) :
    pickKeys rest (delKey n m) = pickKeys rest m := by
  induction rest with
  | nil => rfl
  | cons r rs ih =>
    have hr : ¬ r = n := h r (by simp)
    have hdel : findVal r (delKey n m) = findVal r m := by
      rw [findVal_delKey, if_neg hr]
    rw [pickKeys, pickKeys, hdel, ih (fun x hx => h x (by simp [hx]))]

theorem dropKeys_delKey {α : Type} (rest : List String) (n : String)
    (m : List (String × α)) :
    dropKeys rest (delKey n m) = dropKeys (n :: rest) m := by
  induction m with
  | nil => rfl
  | cons p ps ih =>
    by_cases hp : p.1 = n
    · simp [delKey, dropKeys, strIn, hp, ih]
    · have hnp : ¬ n = p.1 := fun hc => hp hc.symm
      by_cases hr : strIn p.1 rest = true <;>
        simp [delKey, dropKeys, strIn, hp, hnp, hr, ih]

theorem dropKeys_cons_of_none {α : Type} (rest : List String) (n : String)
    (m : List (String × α)) (h : findVal n m = none) :
    dropKeys (n :: rest) m = dropKeys rest m := by
  induction m with
  | nil => rfl
  | cons p ps ih =>
    have hp : ¬ p.1 = n := by
      intro hc
      simp [findVal, hc] at h
    have hps : findVal n ps = none := by
      simpa [findVal, hp] using h
    have hnp : ¬ n = p.1 := fun hc => hp hc.symm
    by_cases hr : strIn p.1 rest = true <;>
      simp [dropKeys, strIn, hnp, hr, ih hps]

theorem reorderLoop_eq (names : List String) (hn : names.Nodup) :
    ∀ (acc m : List (String × FieldConfig)),
    ObjectTypeComposer.reorderLoop names acc m
      = (acc ++ pickKeys names m, dropKeys names m) := by
  induction names with
  | nil =>
    intro acc m
    simp [ObjectTypeComposer.reorderLoop, pickKeys, dropKeys_nil]
  | cons n rest ih =>
    intro acc m
    have hmem : n ∉ rest := (List.nodup_cons.mp hn).1
    have hrest : rest.Nodup := (List.nodup_cons.mp hn).2
    cases h : findVal n m with
    | some fc =>
      simp only [ObjectTypeComposer.reorderLoop, h]
      rw [ih hrest, pickKeys_delKey rest n m (fun r hr hc => hmem (hc ▸ hr)),
        dropKeys_delKey]
      simp [pickKeys, h]
    | none =>
      simp only [ObjectTypeComposer.reorderLoop, h]
      rw [ih hrest, dropKeys_cons_of_none rest n m h]
      simp [pickKeys, h]

/-- Claim C9: `reorderFields` moves the named fields that exist to the
front in the given order (with their configs unchanged), skips names not
present, and appends all remaining fields in their original relative
order; the composer's name is untouched. -/
theorem reorderFields_spec (tc : ObjectTypeComposer) (names : List String)
    (hn : names.Nodup) :
    (tc.reorderFields names).fields
        = pickKeys names tc.fields ++ dropKeys names tc.fields
    ∧ (tc.reorderFields names).name = tc.name := by
  unfold ObjectTypeComposer.reorderFields
  rw [reorderLoop_eq names hn]
  exact ⟨by simp, rfl⟩

/-- Claim C9 witness: on field order `[a, b, c]`, `reorderFields(['c'])`
yields `[c, a, b]`, and `reorderFields(['z'])` with non-existent `z`
leaves the order unchanged. -/
theorem reorderFields_spec_witness :
    (ObjectTypeComposer.reorderFields
        ⟨"T", [("a", { type := .named "A" }), ("b", { type := .named "B" }),
               ("c", { type := .named "C" })]⟩ ["c"]).fields
      = [("c", { type := .named "C" }), ("a", { type := .named "A" }),
         ("b", { type := .named "B" })]
    ∧ (ObjectTypeComposer.reorderFields
        ⟨"T", [("a", { type := .named "A" }), ("b", { type := .named "B" }),
               ("c", { type := .named "C" })]⟩ ["z"]).fields
      = [("a", { type := .named "A" }), ("b", { type := .named "B" }),
         ("c", { type := .named "C" })] := by
  constructor
  · rw [(reorderFields_spec _ ["c"] (by decide)).1]
    decide
  · rw [(reorderFields_spec _ ["z"] (by decide)).1]
    decide

/-- Claim C8: `extendField` on an absent field fails with an
unknown-field error leaving the field map unchanged; on a present field
it replaces the descriptor in place (key set and positions preserved,
other fields untouched) with the shallow merge of the partial over the
existing descriptor: a key present in the partial wins, an absent key
keeps the previous value, and `extensions` is merged key-by-key with the
partial's keys winning while the previous bag's other keys survive. -/
theorem extendField_spec (tc : ObjectTypeComposer) (fieldName : String)
    (patch : FieldPatch) :
    (findVal fieldName tc.fields = none →
      tc.extendField fieldName patch
        = (tc, some ("Cannot extend field '" ++ fieldName ++ "' from type '"
            ++ tc.name ++ "'. Field does not exist.")))
    ∧ ∀ prev, findVal fieldName tc.fields = some prev →
        (tc.extendField fieldName patch).2 = none
        ∧ (tc.extendField fieldName patch).1.name = tc.name
        ∧ keysOf (tc.extendField fieldName patch).1.fields = keysOf tc.fields
        ∧ findVal fieldName (tc.extendField fieldName patch).1.fields
            = some (applyPatch prev patch)
        ∧ (∀ k, ¬ k = fieldName →
            findVal k (tc.extendField fieldName patch).1.fields
              = findVal k tc.fields)
        ∧ (applyPatch prev patch).type = patch.type.getD prev.type
        ∧ (applyPatch prev patch).args = patch.args.getD prev.args
        ∧ (patch.description = none →
            (applyPatch prev patch).description = prev.description)
        ∧ (∀ d, patch.description = some d →
            (applyPatch prev patch).description = some d)
        ∧ (patch.deprecationReason = none →
            (applyPatch prev patch).deprecationReason = prev.deprecationReason)
        ∧ (∀ d, patch.deprecationReason = some d →
            (applyPatch prev patch).deprecationReason = some d)
        ∧ (∀ k, findVal k (applyPatch prev patch).extensions
            = match findVal k (patch.extensions.getD []) with
              | some v => some v
              | none => findVal k prev.extensions) := by
  constructor
  · intro h
    simp [ObjectTypeComposer.extendField, h]
  · intro prev hprev
    have hk : hasKey fieldName tc.fields = true := by
      rw [hasKey_eq_isSome_findVal, hprev]
      rfl
    have hext : tc.extendField fieldName patch
        = ({ tc with fields := jsSet tc.fields fieldName (applyPatch prev patch) },
            none) := by
      simp [ObjectTypeComposer.extendField, hprev]
    refine ⟨by rw [hext], by rw [hext], ?_, ?_, ?_, ?_, ?_, ?_, ?_, ?_, ?_, ?_⟩
    · rw [hext]
      exact keysOf_jsSet_present _ hk
    · rw [hext]
      simp [findVal_jsSet]
    · intro k hkne
      rw [hext]
      simp only [findVal_jsSet]
      rw [if_neg hkne]
    · rfl
    · rfl
    · intro h
      simp [applyPatch, h]
    · intro d h
      simp [applyPatch, h]
    · intro h
      simp [applyPatch, h]
    · intro d h
      simp [applyPatch, h]
    · intro k
      cases hb : findVal k (patch.extensions.getD []) with
      | some v => simp [applyPatch, findVal_jsSpread, hb]
      | none => simp [applyPatch, findVal_jsSpread, hb]

/-- Claim C8 witness: extending a field whose descriptor has extensions
`x=1, y=2` with a partial carrying `description: new` and extensions
`y=3, z=4` succeeds, replaces the descriptor, overrides `y`, keeps `x`
and adds `z`. -/
theorem extendField_spec_witness :
    (ObjectTypeComposer.extendField
        ⟨"T", [("a", { type := .named "Int", description := some "old",
                       extensions := [("x", .str "1"), ("y", .str "2")] })]⟩
        "a" { description := some "new",
              extensions := some [("y", .str "3"), ("z", .str "4")] }).2 = none
    ∧ findVal "a" (ObjectTypeComposer.extendField
        ⟨"T", [("a", { type := .named "Int", description := some "old",
                       extensions := [("x", .str "1"), ("y", .str "2")] })]⟩
        "a" { description := some "new",
              extensions := some [("y", .str "3"), ("z", .str "4")] }).1.fields
      = some { type := .named "Int", description := some "new",
               extensions := [("x", .str "1"), ("y", .str "3"), ("z", .str "4")] } := by
  have h := (extendField_spec
    ⟨"T", [("a", { type := .named "Int", description := some "old",
                   extensions := [("x", .str "1"), ("y", .str "2")] })]⟩
    "a" { description := some "new",
          extensions := some [("y", .str "3"), ("z", .str "4")] }).2
    { type := .named "Int", description := some "old",
      extensions := [("x", .str "1"), ("y", .str "2")] } (by decide)
  refine ⟨h.1, ?_⟩
  rw [h.2.2.2.1]
  decide

theorem applyPatch_dep (prev : FieldConfig) (r : String) :
    applyPatch prev { deprecationReason := some r }
      = { prev with deprecationReason := some r } := by
  simp [applyPatch, jsSpread_nil_right]

theorem applyDeprecations_findVal (pre : List String) :
    ∀ (tc : ObjectTypeComposer),
    (∀ g ∈ pre, hasKey g tc.fields = true) → ∀ k,
    findVal k (applyDeprecations pre tc).fields
      = if strIn k pre then
          (findVal k tc.fields).map
            (fun fc => { fc with deprecationReason := some "deprecated" })
        else findVal k tc.fields := by
  induction pre with
  | nil =>
    intro tc _ k
    simp [applyDeprecations, strIn]
  | cons g pre' ih =>
    intro tc hpre k
    have hg : hasKey g tc.fields = true := hpre g (by simp)
    rcases Option.isSome_iff_exists.mp (by rw [hasKey_eq_isSome_findVal] at hg; exact hg)
      with ⟨prev, hprev⟩
    have hstep : (tc.extendField g { deprecationReason := some "deprecated" }).1
        = { tc with fields := jsSet tc.fields g ({ prev with deprecationReason := some "deprecated" }) } := by
      simp [ObjectTypeComposer.extendField, hprev, applyPatch_dep]
    have hfields : ∀ k', findVal k'
        (tc.extendField g { deprecationReason := some "deprecated" }).1.fields
        = if k' = g then some { prev with deprecationReason := some "deprecated" }
          else findVal k' tc.fields := by
      intro k'
      rw [hstep]
      simp [findVal_jsSet]
    have hpre' : ∀ g' ∈ pre',
        hasKey g' (tc.extendField g { deprecationReason := some "deprecated" }).1.fields
          = true := by
      intro g' hg'
      rw [hasKey_eq_isSome_findVal, hfields g']
      by_cases hgg : g' = g
      · simp [hgg]
      · rw [if_neg hgg, ← hasKey_eq_isSome_findVal]
        exact hpre g' (by simp [hg'])
    have happly : applyDeprecations (g :: pre') tc
        = applyDeprecations pre'
            (tc.extendField g { deprecationReason := some "deprecated" }).1 := by
      simp [applyDeprecations]
    rw [happly, ih _ hpre' k]
    by_cases hkg : k = g
    · subst hkg
      by_cases hkp : strIn k pre' = true
      · simp [strIn, hkp, hfields k, hprev]
      · simp [strIn, hkp, hfields k, hprev]
    · have hgk : ¬ g = k := fun hc => hkg hc.symm
      have hsk : strIn k (g :: pre') = strIn k pre' := by
        simp [strIn, hgk]
      rw [hfields k, if_neg hkg, hsk]

theorem deprecateLoop_spec (existed : List String) (tn : String)
    (pre : List String) (f : String) (post : List String) :
    ∀ tc : ObjectTypeComposer,
    (∀ g ∈ pre, strIn g existed = true ∧ hasKey g tc.fields = true) →
    strIn f existed = false →
    ObjectTypeComposer.deprecateLoop existed tn (pre ++ f :: post) tc
      = (applyDeprecations pre tc,
         some ("Cannot deprecate unexisted field '" ++ f ++ "' from type '"
           ++ tn ++ "'")) := by
  induction pre with
  | nil =>
    intro tc _ hf
    simp [ObjectTypeComposer.deprecateLoop, hf, applyDeprecations]
  | cons g pre' ih =>
    intro tc hpre hf
    have hg := hpre g (by simp)
    rcases Option.isSome_iff_exists.mp
      (by rw [hasKey_eq_isSome_findVal] at hg; exact hg.2) with ⟨prev, hprev⟩
    have hext : tc.extendField g { deprecationReason := some "deprecated" }
        = ({ tc with fields := jsSet tc.fields g ({ prev with deprecationReason := some "deprecated" }) }, none) := by
      simp [ObjectTypeComposer.extendField, hprev, applyPatch_dep]
    have hpre' : ∀ g' ∈ pre', strIn g' existed = true ∧
        hasKey g' (jsSet tc.fields g ({ prev with deprecationReason := some "deprecated" })) = true := by
      intro g' hg'
      refine ⟨(hpre g' (by simp [hg'])).1, ?_⟩
      rw [hasKey_jsSet]
      by_cases hgg : g' = g
      · simp [hgg]
      · rw [if_neg hgg]
        exact (hpre g' (by simp [hg'])).2
    have heq : applyDeprecations (g :: pre') tc
        = applyDeprecations pre' ({ tc with fields := jsSet tc.fields g ({ prev with deprecationReason := some "deprecated" }) }) := by
      simp [applyDeprecations, hext]
    simp only [List.cons_append, ObjectTypeComposer.deprecateLoop, hg.1, if_true, hext]
    rw [heq]
    exact ih _ (fun g' hg' => hpre' g' hg') hf

/-- Claim C3 counterexample: on a composer whose only field is `a`,
`deprecateFields(['a','zzz'])` throws the unknown-field error for `zzz`,
yet field `a`'s deprecation reason has already been set to
`'deprecated'` — the call is not all-or-nothing. -/
theorem deprecateFields_cex :
    ((ObjectTypeComposer.deprecateFields
        ⟨"T", [("a", { type := .named "Int" })]⟩ (.names ["a", "zzz"])).2).isSome
      = true
    ∧ (findVal "a" (ObjectTypeComposer.deprecateFields
          ⟨"T", [("a", { type := .named "Int" })]⟩ (.names ["a", "zzz"])).1.fields).map
        (fun fc => fc.deprecationReason)
      = some (some "deprecated") := by
  decide

/-- Claim C3 (amended): `deprecateFields` with a list containing a
non-existent name fails with the unknown-field error at the first such
name, but mutation is per-item rather than atomic: every existing name
processed before the failing one has already had its deprecation reason
set to `'deprecated'` when the error is thrown, and fields not named in
that prefix are unchanged (a single name and a name-to-reason map behave
analogously, in argument/key order). -/
theorem deprecateFields_spec (tc : ObjectTypeComposer) (pre : List String)
    (f : String) (post : List String)
    (hpre : ∀ g ∈ pre, hasKey g tc.fields = true)
    (hf : hasKey f tc.fields = false) :
    tc.deprecateFields (.names (pre ++ f :: post))
      = (applyDeprecations pre tc,
         some ("Cannot deprecate unexisted field '" ++ f ++ "' from type '"
           ++ tc.name ++ "'"))
    ∧ (∀ g ∈ pre, ∃ fc, findVal g (applyDeprecations pre tc).fields = some fc
        ∧ fc.deprecationReason = some "deprecated")
    ∧ (∀ k, strIn k pre = false →
        findVal k (applyDeprecations pre tc).fields = findVal k tc.fields) := by
  refine ⟨?_, ?_, ?_⟩
  · have h := deprecateLoop_spec tc.getFieldNames tc.name pre f post tc
      (fun g hg => ⟨by
        rw [ObjectTypeComposer.getFieldNames, strIn_keysOf]
        exact hpre g hg, hpre g hg⟩)
      (by rw [ObjectTypeComposer.getFieldNames, strIn_keysOf]; exact hf)
    simpa [ObjectTypeComposer.deprecateFields] using h
  · intro g hg
    have hk : hasKey g tc.fields = true := hpre g hg
    rcases Option.isSome_iff_exists.mp
      (by rw [hasKey_eq_isSome_findVal] at hk; exact hk) with ⟨prev, hprev⟩
    refine ⟨{ prev with deprecationReason := some "deprecated" }, ?_, rfl⟩
    rw [applyDeprecations_findVal pre tc hpre g, if_pos ((strIn_iff_mem g pre).mpr hg),
      hprev]
    rfl
  · intro k hk
    rw [applyDeprecations_findVal pre tc hpre k, if_neg (by simp [hk])]

/-- Claim C3 witness: the amended behaviour at the spec's own example:
only field `a` exists, `deprecateFields(['a','zzz'])` throws and leaves
`a` deprecated. -/
theorem deprecateFields_spec_witness :
    (ObjectTypeComposer.deprecateFields
        ⟨"T", [("a", { type := .named "Int" })]⟩ (.names ["a", "zzz"]))
      = (applyDeprecations ["a"] ⟨"T", [("a", { type := .named "Int" })]⟩,
         some "Cannot deprecate unexisted field 'zzz' from type 'T'")
    ∧ (∃ fc, findVal "a"
          (applyDeprecations ["a"] ⟨"T", [("a", { type := .named "Int" })]⟩).fields
        = some fc ∧ fc.deprecationReason = some "deprecated") := by
  have h := deprecateFields_spec ⟨"T", [("a", { type := .named "Int" })]⟩
    ["a"] "zzz" [] (by decide) (by decide)
  exact ⟨h.1, h.2.1 "a" (by simp)⟩

/-- Claim C10: `hasFieldArg` is a pure boolean query (it is a function
into `Bool`, never an error): it is true exactly when the field exists
and carries the argument, and for a missing field it returns `false`
even though `getFieldArgs` and `getFieldArg` throw on the same input. -/
theorem hasFieldArg_spec (tc : ObjectTypeComposer) (f a : String) :
    (tc.hasFieldArg f a = true ↔
      ∃ fc, findVal f tc.fields = some fc ∧ (findVal a fc.args).isSome = true)
    ∧ (findVal f tc.fields = none →
        tc.hasFieldArg f a = false
        ∧ (∃ e, tc.getFieldArgs f = .error e)
        ∧ (∃ e, tc.getFieldArg f a = .error e)) := by
  constructor
  · cases h : findVal f tc.fields with
    | none =>
      simp [ObjectTypeComposer.hasFieldArg, ObjectTypeComposer.getFieldArgs, h]
    | some fc =>
      simp [ObjectTypeComposer.hasFieldArg, ObjectTypeComposer.getFieldArgs, h]
  · intro h
    refine ⟨?_, ?_, ?_⟩
    · simp [ObjectTypeComposer.hasFieldArg, ObjectTypeComposer.getFieldArgs, h]
    · exact ⟨"Cannot get args from '" ++ tc.name ++ "." ++ f ++ "'. Field does not exist.",
        by simp [ObjectTypeComposer.getFieldArgs, h]⟩
    · exact ⟨"Cannot get args from '" ++ tc.name ++ "." ++ f ++ "'. Field does not exist.",
        by simp [ObjectTypeComposer.getFieldArg, ObjectTypeComposer.getFieldArgs, h]⟩

/-- Claim C10 witness: on a composer with no field `f`, `hasFieldArg`
returns `false` while `getFieldArgs` and `getFieldArg` yield errors. -/
theorem hasFieldArg_spec_witness :
    (ObjectTypeComposer.hasFieldArg ⟨"T", []⟩ "f" "a" = false)
    ∧ (∃ e, ObjectTypeComposer.getFieldArgs ⟨"T", []⟩ "f" = .error e)
    ∧ (∃ e, ObjectTypeComposer.getFieldArg ⟨"T", []⟩ "f" "a" = .error e) := by
  have h := (hasFieldArg_spec ⟨"T", []⟩ "f" "a").2 (by decide)
  exact ⟨h.1, h.2.1, h.2.2⟩

/-!  Lemmas for the relation compiler (`_relationWithResolverToFC`). -/

theorem findVal_eq_none_of_not_mem_keys {α : Type} {k : String}
    {m : List (String × α)} (h : k ∉ keysOf m) : findVal k m = none := by
  apply findVal_eq_none_of_hasKey_false
  rw [← strIn_keysOf]
  cases hb : strIn k (keysOf m)
  · rfl
  · exact absurd ((strIn_iff_mem _ _).mp hb) h

theorem keepArg_cons (p : String × PrepareArgVal)
    (ps : List (String × PrepareArgVal)) (a : String) :
    keepArg (p :: ps) a = if p.1 = a then p.2.isUndefined else keepArg ps a := by
  by_cases hp : p.1 = a <;> simp [keepArg, findVal, hp]

theorem filter_delKey {α : Type} (k : String) (q : String × α → Bool)
    (m : List (String × α)) :
    (delKey k m).filter q = m.filter (fun a => if a.1 = k then false else q a) := by
  induction m with
  | nil => rfl
  | cons p ps ih =>
    by_cases hp : p.1 = k <;> simp [delKey, hp, ih, List.filter_cons]

theorem removedArgsConfig_eq (prep : List (String × PrepareArgVal)) :
    (keysOf prep).Nodup →
    ∀ base : List (String × ArgConfig),
    removedArgsConfig base prep = base.filter (fun a => keepArg prep a.1) := by
  induction prep with
  | nil =>
    intro _ base
    have : (fun a : String × ArgConfig => keepArg [] a.1) = fun _ => true := by
      funext a
      rfl
    simp [removedArgsConfig, this]
  | cons p ps ih =>
    intro hk base
    have hmem : p.1 ∉ keysOf ps := by
      simpa [keysOf] using (List.nodup_cons.mp (by simpa [keysOf] using hk)).1
    have hps : (keysOf ps).Nodup := (List.nodup_cons.mp (by simpa [keysOf] using hk)).2
    have hnone : findVal p.1 ps = none := findVal_eq_none_of_not_mem_keys hmem
    by_cases hu : p.2.isUndefined = true
    · have hpred : (fun a : String × ArgConfig => keepArg ps a.1)
          = fun a => keepArg (p :: ps) a.1 := by
        funext a
        rw [keepArg_cons]
        by_cases hpa : p.1 = a.1
        · rw [if_pos hpa, ← hpa]
          simp [keepArg, hnone, hu]
        · rw [if_neg hpa]
      have : removedArgsConfig base (p :: ps) = removedArgsConfig base ps := by
        simp [removedArgsConfig, hu]
      rw [this, ih hps base, hpred]
    · have hstep : removedArgsConfig base (p :: ps)
          = removedArgsConfig (delKey p.1 base) ps := by
        simp [removedArgsConfig, hu]
      rw [hstep, ih hps (delKey p.1 base), filter_delKey]
      congr 1
      funext a
      rw [keepArg_cons]
      by_cases hpa : a.1 = p.1
      · rw [if_pos hpa, if_pos hpa.symm]
        simpa using hu
      · rw [if_neg hpa, if_neg (fun hc => hpa hc.symm)]

theorem jsGet_runtime_foldl (R : List (String × PrepFn)) :
    (keysOf R).Nodup →
    ∀ (s : Source) (a : ArgsMap) (c i : JVal) (base : ArgsMap) (k : String),
    jsGet (R.foldl (fun na p => jsSet na p.1 (p.2 s a c i)) base) k
      = match findVal k R with
        | some f => f s a c i
        | none => jsGet base k := by
  induction R with
  | nil =>
    intro _ s a c i base k
    simp [findVal]
  | cons p rest ih =>
    intro hk s a c i base k
    have hmem : p.1 ∉ keysOf rest := by
      simpa [keysOf] using (List.nodup_cons.mp (by simpa [keysOf] using hk)).1
    have hrest : (keysOf rest).Nodup :=
      (List.nodup_cons.mp (by simpa [keysOf] using hk)).2
    rw [List.foldl_cons, ih hrest]
    by_cases hpk : p.1 = k
    · subst hpk
      rw [findVal_eq_none_of_not_mem_keys hmem]
      simp [findVal, jsGet_jsSet]
    · have hkp : ¬ k = p.1 := fun hc => hpk hc.symm
      cases hr : findVal k rest with
      | some g => simp [findVal, hpk, hr]
      | none => simp [findVal, hpk, hr, jsGet_jsSet, hkp]

theorem findVal_protoFold (prep : List (String × PrepareArgVal)) :
    (keysOf prep).Nodup →
    ∀ (acc : ArgsMap) (k : String),
    findVal k (prep.foldl
        (fun acc p => match p.2 with
          | .value v => jsSet acc p.1 v
          | _ => acc) acc)
      = match findVal k prep with
        | some (.value v) => some v
        | _ => findVal k acc := by
  induction prep with
  | nil =>
    intro _ acc k
    simp [findVal]
  | cons p ps ih =>
    intro hk acc k
    have hmem : p.1 ∉ keysOf ps := by
      simpa [keysOf] using (List.nodup_cons.mp (by simpa [keysOf] using hk)).1
    have hps : (keysOf ps).Nodup := (List.nodup_cons.mp (by simpa [keysOf] using hk)).2
    rw [List.foldl_cons, ih hps]
    by_cases hpk : p.1 = k
    · subst hpk
      rw [findVal_eq_none_of_not_mem_keys hmem]
      cases hv : p.2 <;> simp [findVal, hv, findVal_jsSet]
    · have hkp : ¬ k = p.1 := fun hc => hpk hc.symm
      cases hv : p.2 <;> cases hr : findVal k ps <;>
        simp [findVal, hpk, hr, findVal_jsSet, hkp]

theorem findVal_runtimeOf (prep : List (String × PrepareArgVal)) :
    (keysOf prep).Nodup →
    ∀ k : String,
    findVal k (runtimeOf prep)
      = match findVal k prep with
        | some (.fn f) => some f
        | _ => none := by
  induction prep with
  | nil =>
    intro _ k
    simp [runtimeOf, findVal]
  | cons p ps ih =>
    intro hk k
    obtain ⟨n, v⟩ := p
    have hmem : n ∉ keysOf ps := by
      simpa [keysOf] using (List.nodup_cons.mp (by simpa [keysOf] using hk)).1
    have hps : (keysOf ps).Nodup := (List.nodup_cons.mp (by simpa [keysOf] using hk)).2
    by_cases hpk : n = k
    · subst hpk
      have hnone : findVal n ps = none := findVal_eq_none_of_not_mem_keys hmem
      cases v with
      | fn f =>
        simp [runtimeOf, findVal]
      | undefined =>
        rw [show runtimeOf ((n, .undefined) :: ps) = runtimeOf ps from rfl, ih hps n, hnone]
        simp [findVal]
      | null =>
        rw [show runtimeOf ((n, .null) :: ps) = runtimeOf ps from rfl, ih hps n, hnone]
        simp [findVal]
      | value w =>
        rw [show runtimeOf ((n, .value w) :: ps) = runtimeOf ps from rfl, ih hps n, hnone]
        simp [findVal]
    · cases v with
      | fn f =>
        simp [runtimeOf, findVal, hpk, ih hps]
      | undefined =>
        rw [show runtimeOf ((n, .undefined) :: ps) = runtimeOf ps from rfl, ih hps k]
        simp [findVal, hpk]
      | null =>
        rw [show runtimeOf ((n, .null) :: ps) = runtimeOf ps from rfl, ih hps k]
        simp [findVal, hpk]
      | value w =>
        rw [show runtimeOf ((n, .value w) :: ps) = runtimeOf ps from rfl, ih hps k]
        simp [findVal, hpk]

theorem keysOf_runtimeOf_sublist (prep : List (String × PrepareArgVal)) :
    List.Sublist (keysOf (runtimeOf prep)) (keysOf prep) := by
  induction prep with
  | nil => simp [runtimeOf, keysOf]
  | cons p ps ih =>
    cases hv : p.2 with
    | fn f => simpa [runtimeOf, hv, keysOf] using List.Sublist.cons₂ p.1 ih
    | undefined => simpa [runtimeOf, hv, keysOf] using List.Sublist.cons p.1 ih
    | null => simpa [runtimeOf, hv, keysOf] using List.Sublist.cons p.1 ih
    | value v => simpa [runtimeOf, hv, keysOf] using List.Sublist.cons p.1 ih

theorem mergedArgs_jsGet (prep : List (String × PrepareArgVal))
    (hk : (keysOf prep).Nodup) (s : Source) (a : ArgsMap) (c i : JVal)
    (k : String) :
    jsGet (mergedArgs (protoOf prep) (runtimeOf prep) s a c i) k
      = match findVal k prep with
        | some (.fn f) => f s a c i
        | some (.value v) => v
        | _ => jsGet a k := by
  have hrt : (keysOf (runtimeOf prep)).Nodup :=
    (keysOf_runtimeOf_sublist prep).nodup hk
  unfold mergedArgs
  rw [jsGet_runtime_foldl (runtimeOf prep) hrt s a c i (jsSpread a (protoOf prep)) k]
  rw [findVal_runtimeOf prep hk k]
  cases hp : findVal k prep with
  | none =>
    simp only []
    unfold jsGet
    rw [findVal_jsSpread]
    unfold protoOf
    rw [findVal_protoFold prep hk [] k, hp]
    simp [findVal]
  | some v =>
    cases v with
    | fn f => simp
    | undefined =>
      simp only []
      unfold jsGet
      rw [findVal_jsSpread]
      unfold protoOf
      rw [findVal_protoFold prep hk [] k, hp]
      simp [findVal]
    | null =>
      simp only []
      unfold jsGet
      rw [findVal_jsSpread]
      unfold protoOf
      rw [findVal_protoFold prep hk [] k, hp]
      simp [findVal]
    | value w =>
      simp only []
      unfold jsGet
      rw [findVal_jsSpread]
      unfold protoOf
      rw [findVal_protoFold prep hk [] k, hp]
      simp [findVal]

/-- Claim C1: in a relation compiled from a delegate resolver, every
`prepareArgs` key with a non-undefined value is removed from the exposed
argument set (undefined leaves the argument untouched, null removes it
with no runtime substitution), and the argument object handed to the
delegate on every call maps each key to: the runtime mapper's result
`f(source, originalArgs, context, info)` when `prepareArgs` holds a
function, the static value when it holds another concrete value, and the
caller's own argument otherwise. -/
theorem relation_prepareArgs_spec (r : Resolver) (o : RelationOpts)
    (hk : (keysOf o.prepareArgs).Nodup) :
    (relationWithResolverToFC r o).args
        = r.args.filter (fun a => keepArg o.prepareArgs a.1)
    ∧ (∀ (s : Source) (args : ArgsMap) (c i : JVal) (k : String),
        jsGet (mergedArgs (protoOf o.prepareArgs) (runtimeOf o.prepareArgs)
            s args c i) k
          = match findVal k o.prepareArgs with
            | some (.fn f) => f s args c i
            | some (.value v) => v
            | _ => jsGet args k) := by
  constructor
  · exact removedArgsConfig_eq o.prepareArgs hk r.args
  · intro s args c i k
    exact mergedArgs_jsGet o.prepareArgs hk s args c i k

/-- Claim C1 witness: for a delegate with arguments `{id, limit}` and
`prepareArgs = { limit: 10, id: (src) => src.id }`, the exposed argument
set is empty; with `source = {id: 'x'}` the merged arguments are
`limit = 10` and `id = 'x'`, and the compiled resolve hands the delegate
exactly `{limit: 10, id: 'x'}` (the sample delegate returns its marker
value only on that exact argument object). -/
theorem relation_prepareArgs_spec_witness :
    (relationWithResolverToFC sampleResolver sampleOpts).args = []
    ∧ jsGet (mergedArgs (protoOf sampleOpts.prepareArgs)
        (runtimeOf sampleOpts.prepareArgs) sampleSource [] .null .null) "limit"
      = .num 10
    ∧ jsGet (mergedArgs (protoOf sampleOpts.prepareArgs)
        (runtimeOf sampleOpts.prepareArgs) sampleSource [] .null .null) "id"
      = .str "x"
    ∧ relationResolve sampleResolver sampleOpts sampleSource [] .null .null
      = (.promiseOk (.str "delegate-args-ok"), 0) := by
  have h := relation_prepareArgs_spec sampleResolver sampleOpts (by decide)
  refine ⟨?_, ?_, ?_, ?_⟩
  · rw [h.1]
    rfl
  · rw [h.2 sampleSource [] .null .null "limit"]
    rfl
  · rw [h.2 sampleSource [] .null .null "id"]
    rfl
  · rfl

/-- Claim C2 counterexample: with `catchErrors` left at its default
(true), a delegate whose resolve throws synchronously makes the compiled
resolve itself throw — the failure propagates to the caller and the
error sink is never invoked, contradicting the claim that any failure
yields null and is reported exactly once. -/
theorem relation_catchErrors_cex :
    relationResolve
        { args := [], type := .named "User",
          resolve := some (fun _ _ _ _ => .thrown "boom") }
        { prepareArgs := [], catchErrors := none } [] [] .null .null
      = (.thrown "boom", 0)
    ∧ ({ prepareArgs := [], catchErrors := none } : RelationOpts).catchErrors.getD true
      = true := by
  exact ⟨rfl, rfl⟩

/-- Claim C2 (amended): with `catchErrors` true (the default when the
relation spec omits it), an asynchronous failure of the delegate (a
rejected promise) yields a promise fulfilled with null and the error
sink is invoked exactly once, while a synchronous throw from the
delegate's resolve escapes the promise wrapping and propagates to the
caller with no report; successful payloads pass through (wrapped in a
fulfilled promise).  With `catchErrors` false, the delegate's outcome —
failure or not — propagates unchanged and the sink is never invoked. -/
theorem relation_catchErrors_spec (r : Resolver) (o : RelationOpts)
    (s : Source) (a : ArgsMap) (c i : JVal) :
    (o.catchErrors.getD true = true →
      (∀ e, delegatePayload r o s a c i = .promiseErr e →
          relationResolve r o s a c i = (.promiseOk .null, 1))
      ∧ (∀ e, delegatePayload r o s a c i = .thrown e →
          relationResolve r o s a c i = (.thrown e, 0))
      ∧ (∀ v, delegatePayload r o s a c i = .ret v →
          relationResolve r o s a c i = (.promiseOk v, 0))
      ∧ (∀ v, delegatePayload r o s a c i = .promiseOk v →
          relationResolve r o s a c i = (.promiseOk v, 0)))
    ∧ (o.catchErrors.getD true = false →
        relationResolve r o s a c i = (delegatePayload r o s a c i, 0)) := by
  constructor
  · intro hc
    refine ⟨?_, ?_, ?_, ?_⟩ <;> intro x hx <;> simp [relationResolve, hx, hc]
  · intro hc
    simp [relationResolve, hc]

/-- Claim C2 witness: a delegate failing with a rejected promise yields
null (as a fulfilled promise) and one report under the default
`catchErrors`, and propagates unchanged with no report under
`catchErrors: false`. -/
theorem relation_catchErrors_spec_witness :
    relationResolve
        { args := [], type := .named "User",
          resolve := some (fun _ _ _ _ => .promiseErr "boom") }
        { prepareArgs := [] } [] [] .null .null
      = (.promiseOk .null, 1)
    ∧ relationResolve
        { args := [], type := .named "User",
          resolve := some (fun _ _ _ _ => .promiseErr "boom") }
        { prepareArgs := [], catchErrors := some false } [] [] .null .null
      = (.promiseErr "boom", 0) := by
  constructor
  · exact ((relation_catchErrors_spec
      { args := [], type := .named "User",
        resolve := some (fun _ _ _ _ => .promiseErr "boom") }
      { prepareArgs := [] } [] [] .null .null).1 rfl).1 "boom" rfl
  · exact ((relation_catchErrors_spec
      { args := [], type := .named "User",
        resolve := some (fun _ _ _ _ => .promiseErr "boom") }
      { prepareArgs := [], catchErrors := some false } [] [] .null .null).2 rfl).trans rfl

/-- Claim C7 counterexample: a relation spec that omits
`deprecationReason` compiles to a descriptor with no deprecation reason
even though the delegate resolver carries one — `deprecationReason` does
not fall back to the resolver's metadata. -/
theorem relation_descriptor_cex :
    (relationWithResolverToFC
        { args := [], type := .named "User", description := some "resolver-desc",
          deprecationReason := some "use other" }
        { prepareArgs := [] }).deprecationReason = none
    ∧ ({ args := [], type := .named "User", description := some "resolver-desc",
          deprecationReason := some "use other" } : Resolver).deprecationReason
      = some "use other"
    ∧ ({ prepareArgs := [] } : RelationOpts).deprecationReason = none := by
  exact ⟨rfl, rfl, rfl⟩

/-- Claim C7 (amended): the compiled descriptor's type is exactly the
delegate resolver's declared output type (not re-derived), and its
description falls back to the resolver's own description when the
relation spec provides none; its deprecation reason, however, is taken
from the relation spec alone and never falls back to the resolver's. -/
theorem relation_descriptor_spec (r : Resolver) (o : RelationOpts) :
    (relationWithResolverToFC r o).type = r.type
    ∧ (o.description = none →
        (relationWithResolverToFC r o).description = r.description)
    ∧ (relationWithResolverToFC r o).deprecationReason = o.deprecationReason := by
  refine ⟨rfl, ?_, rfl⟩
  intro h
  simp [relationWithResolverToFC, jsOrStr, h]

/-- Claim C7 witness: with no description on the relation spec, the
compiled descriptor carries the resolver's description and the
resolver's declared output type. -/
theorem relation_descriptor_spec_witness :
    (relationWithResolverToFC
        { args := [], type := .named "User", description := some "resolver-desc" }
        { prepareArgs := [] }).description = some "resolver-desc"
    ∧ (relationWithResolverToFC
        { args := [], type := .named "User", description := some "resolver-desc" }
        { prepareArgs := [] }).type = .named "User" := by
  have h := relation_descriptor_spec
    { args := [], type := .named "User", description := some "resolver-desc" }
    { prepareArgs := [] }
  exact ⟨(h.2.1 rfl).trans rfl, h.1.trans rfl⟩
